import Mathlib

/-!
# MEGAID compound-identifier engine: a verification development

Shallow embedding of `src/megaid/megaid.py` (class `MEGAID`): the snowflake
codec (`_create_megaid` / `_decode_megaid`), the dual-key JWT signing model,
and the `create` / `read` / `update` operations on compound IDs of the form
`<snowflake>:<immutable_jwt>:<mutable_jwt>`.

Modelling conventions:
* Python unbounded `int` is `Nat` / `Int`; bit operations (`<<`, `|`, `&`,
  `>>`) are the corresponding `Nat` operations.
* Wall-clock reads (`time.time() * 1000`) and randomness
  (`random.getrandbits(k)`) are passed in as explicit arguments; the
  `getrandbits` library contract (a value of at most `k` bits drawn from the
  entropy stream) is modelled by `getrandbits k entropy = entropy % 2 ^ k`.
* JSON-serializable metadata is modelled by string-keyed association lists of
  scalar values (`Metadata`); the payload dicts that the engine signs may in
  addition hold nested metadata mappings (`Payload`), exactly matching the
  dict literals in the source.
* PyJWT's `jwt.encode` / `jwt.decode` (HS256) are modelled by a concrete
  injective serialization of the payload plus a symbolic MAC that is
  recomputed and compared on decode.  Tokens are strings (`List Char`) over
  an alphabet that, as in real base64url JWTs, never contains `:`.
* A raised-and-caught exception that makes `read` return `{}` or `update`
  return `""` is modelled by `none`; a successful return is `some`.
-/

namespace MegaSpec

/-- Scalar JSON values that may appear in a metadata mapping. -/
inductive Value where
  | str (s : String)
  | num (n : Int)
  | bool (b : Bool)
deriving DecidableEq

/-- A string-keyed metadata mapping (Python dict, in insertion order). -/
abbrev Metadata := List (String × Value)

/-- A value slot of a signed payload dict: either a scalar or a nested
metadata mapping (as in `"immutable_data": {...}`). -/
inductive PayloadVal where
  | atom (v : Value)
  | map (m : Metadata)
deriving DecidableEq

/-- A signed payload dict, e.g. the `idata_payload` literal in `create`. -/
abbrev Payload := List (String × PayloadVal)

/-! ## Flattening payloads to a stream of naturals

The JSON layer of the JWT model: an injective, executable serialization of
payloads into `List Nat`, together with a decoder.  The decoder is written in
the incremental `decode (enc x ++ rest) = some (x, rest)` style so that
round-trip lemmas compose. -/

/-- Serialize a string: its length followed by its character codes. -/
def encString (s : String) : List Nat :=
  s.data.length :: s.data.map Char.toNat

/-- Serialize a scalar value with a leading tag. -/
def encValue : Value → List Nat
  | .str s => 0 :: encString s
  | .num n => [1, if n < 0 then 1 else 0, n.natAbs]
  | .bool b => [2, if b then 1 else 0]

/-- Body of a serialized metadata mapping: the entries back to back. -/
def encEntriesBody (m : Metadata) : List Nat :=
  m.foldr (fun kv acc => encString kv.1 ++ encValue kv.2 ++ acc) []

/-- Serialize a metadata mapping: an entry count, then the entries. -/
def encMetadata (m : Metadata) : List Nat :=
  m.length :: encEntriesBody m

/-- Serialize a payload slot with a leading tag. -/
def encPayloadVal : PayloadVal → List Nat
  | .atom v => 0 :: encValue v
  | .map m => 1 :: encMetadata m

/-- Body of a serialized payload: the entries back to back. -/
def encPayloadBody (p : Payload) : List Nat :=
  p.foldr (fun kv acc => encString kv.1 ++ encPayloadVal kv.2 ++ acc) []

/-- Serialize a payload dict: an entry count, then the entries. -/
def encPayload (p : Payload) : List Nat :=
  p.length :: encPayloadBody p

/-- Read back `n` character codes. -/
def decChars : Nat → List Nat → Option (List Char × List Nat)
  | 0, rest => some ([], rest)
  | _ + 1, [] => none
  | n + 1, c :: rest =>
    (decChars n rest).map fun p => (Char.ofNat c :: p.1, p.2)

/-- Read back a string. -/
def decString : List Nat → Option (String × List Nat)
  | [] => none
  | n :: rest => (decChars n rest).map fun p => (String.mk p.1, p.2)

/-- Read back a scalar value. -/
def decValue : List Nat → Option (Value × List Nat)
  | 0 :: rest => (decString rest).map fun p => (.str p.1, p.2)
  | 1 :: 0 :: m :: rest => some (.num (m : Int), rest)
  | 1 :: 1 :: m :: rest => some (.num (-(m : Int)), rest)
  | 2 :: 0 :: rest => some (.bool false, rest)
  | 2 :: 1 :: rest => some (.bool true, rest)
  | _ => none

/-- Read back `n` metadata entries. -/
def decEntries : Nat → List Nat → Option (Metadata × List Nat)
  | 0, rest => some ([], rest)
  | n + 1, rest => do
    let (k, r1) ← decString rest
    let (v, r2) ← decValue r1
    let (tail, r3) ← decEntries n r2
    some ((k, v) :: tail, r3)

/-- Read back a metadata mapping. -/
def decMetadata : List Nat → Option (Metadata × List Nat)
  | [] => none
  | n :: rest => decEntries n rest

/-- Read back a payload slot. -/
def decPayloadVal : List Nat → Option (PayloadVal × List Nat)
  | 0 :: rest => (decValue rest).map fun p => (.atom p.1, p.2)
  | 1 :: rest => (decMetadata rest).map fun p => (.map p.1, p.2)
  | _ => none

/-- Read back `n` payload entries. -/
def decPEntries : Nat → List Nat → Option (Payload × List Nat)
  | 0, rest => some ([], rest)
  | n + 1, rest => do
    let (k, r1) ← decString rest
    let (v, r2) ← decPayloadVal r1
    let (tail, r3) ← decPEntries n r2
    some ((k, v) :: tail, r3)

/-- Read back a payload dict. -/
def decPayload : List Nat → Option (Payload × List Nat)
  | [] => none
  | n :: rest => decPEntries n rest

/-! ## Rendering a stream of naturals as token text

The textual layer of the JWT model: each natural is printed in decimal and
terminated by `;`.  The resulting alphabet (digits and `;`, plus the single
`.` separating payload from signature) matches the crucial property of real
base64url JWT text: it never contains the compound-ID delimiter `:`. -/

/-- Decimal digits of `n`, most significant first; `fuel` bounds recursion
depth and is sufficient whenever `n < 10 ^ fuel`. -/
def natToCharsAux : Nat → Nat → List Char
  | 0, _ => []
  | fuel + 1, n =>
    if n < 10 then [Nat.digitChar n]
    else natToCharsAux fuel (n / 10) ++ [Nat.digitChar (n % 10)]

/-- Decimal rendering of a natural number (as Python `str(int)`). -/
def natToChars (n : Nat) : List Char := natToCharsAux (n + 1) n

/-- Is `c` a decimal digit? -/
def isDigitCh (c : Char) : Bool := 48 ≤ c.toNat && c.toNat ≤ 57

/-- Numeric value of a decimal digit character. -/
def digitVal (c : Char) : Nat := c.toNat - 48

/-- Accumulate the value of a digit string. -/
def digitsVal (ds : List Char) : Nat :=
  ds.foldl (fun a c => a * 10 + digitVal c) 0

/-- Render a stream of naturals: each in decimal, each followed by `;`. -/
def renderNats (l : List Nat) : List Char :=
  l.foldr (fun n acc => natToChars n ++ ';' :: acc) []

/-- Parse one `<digits>;` group from the front. -/
def parseNatFrom (cs : List Char) : Option (Nat × List Char) :=
  let ds := cs.takeWhile isDigitCh
  match ds, cs.dropWhile isDigitCh with
  | [], _ => none
  | _ :: _, ';' :: rest => some (digitsVal ds, rest)
  | _ :: _, _ => none

/-- Parse a whole character list as `<digits>;` groups; `fuel` bounds
recursion depth and is sufficient whenever it is at least the input length. -/
def parseNatsAux : Nat → List Char → Option (List Nat)
  | _, [] => some []
  | 0, _ :: _ => none
  | fuel + 1, cs => do
    let (n, rest) ← parseNatFrom cs
    let l ← parseNatsAux fuel rest
    some (n :: l)

/-- Parse a whole character list as a stream of naturals. -/
def parseAllNats (cs : List Char) : Option (List Nat) :=
  parseNatsAux cs.length cs

/-- Split a character list on a separator, Python `str.split(sep)` style:
`splitCh sep [] = [[]]`, and every occurrence of `sep` starts a new piece. -/
def splitCh (sep : Char) : List Char → List (List Char)
  | [] => [[]]
  | c :: cs =>
    if c = sep then [] :: splitCh sep cs
    else
      match splitCh sep cs with
      | [] => [[c]]
      | piece :: rest => (c :: piece) :: rest

/-! ## The JWT model

`jwt.encode(payload, key, algorithm="HS256")` and
`jwt.decode(token, key, algorithms=["HS256"])` from PyJWT, modelled over the
serialization above.  The HMAC-SHA-256 signature is modelled symbolically and
ideally: the MAC of a message under a key is the key's serialization followed
by the message, which is injective in both the key and the message — the
idealization of an unforgeable, collision-free MAC.  `jwt.decode` recomputes
the MAC under the supplied key and fails (`none`, standing for the PyJWT
`InvalidSignatureError` / `DecodeError` exceptions) on any mismatch or on
structurally invalid token text. -/

/-- Symbolic model of the HS256 signature over a serialized payload. -/
def hmacSig (key : String) (msgNats : List Nat) : List Nat :=
  encString key ++ msgNats

/-- Model of PyJWT `jwt.encode(payload, key, algorithm="HS256")`. -/
def jwtEncode (p : Payload) (key : String) : List Char :=
  renderNats (encPayload p) ++ '.' :: renderNats (hmacSig key (encPayload p))

/-- Model of PyJWT `jwt.decode(token, key, algorithms=["HS256"])`. -/
def jwtDecode (tok : List Char) (key : String) : Option Payload :=
  match splitCh '.' tok with
  | [plChars, sigChars] => do
    let plNats ← parseAllNats plChars
    let sigNats ← parseAllNats sigChars
    let (p, rest) ← decPayload plNats
    if rest = [] ∧ sigNats = hmacSig key plNats then some p else none
  | _ => none

/-! ## The engine -/

/-- Model of `random.getrandbits(k)`: the low `k` bits of the underlying
entropy stream.  Captures the library contract that the drawn value always
satisfies `getrandbits k < 2 ^ k`. -/
def getrandbits (k : Nat) (entropy : Nat) : Nat := entropy % 2 ^ k

/-- The engine state set up by `MEGAID.__init__`: the two keys, the chosen
bit width, and the default metadata. -/
structure MEGAID where
  admin_key : String
  shared_key : String
  bit_size : Nat
  default_metadata : Metadata
deriving DecidableEq

/-- Python truthiness substitution `x or y` for an optional dict argument:
`y` is used when the argument is `None` (absent) or an empty dict (falsy). -/
def pyDictOr (x : Option Metadata) (y : Metadata) : Metadata :=
  match x with
  | none => y
  | some m => if m = [] then y else m

/-- Embeds `MEGAID.__init__(keys, bit_size, default_metadata)` for a supplied
(truthy) `keys` dict: checks that both `"ADMIN"` and `"SHARED"` are present
and that `bit_size` is one of 64, 52, 32, then stores the keys, the bit size,
and `default_metadata or {"created_by": "MEGAID", "version": "2.0"}`.
(The `keys=None` / empty-dict path, which bootstraps keys from the process
environment or a `.env` file, is an external side effect outside this model;
theorems about construction therefore assume a non-empty supplied mapping.)
`Except.error` models the raised `ValueError`. -/
def MEGAID.init (keys : List (String × String)) (bit_size : Nat)
    (default_metadata : Option Metadata) : Except String MEGAID :=
  if ¬ ((keys.lookup "ADMIN").isSome ∧ (keys.lookup "SHARED").isSome) then
    .error "Keys must include both ADMIN and SHARED"
  else if ¬ (bit_size = 64 ∨ bit_size = 52 ∨ bit_size = 32) then
    .error "bit_size must be one of: 64, 52, 32"
  else
    .ok { admin_key := (keys.lookup "ADMIN").getD ""
          shared_key := (keys.lookup "SHARED").getD ""
          bit_size := bit_size
          default_metadata :=
            pyDictOr default_metadata
              [("created_by", .str "MEGAID"), ("version", .str "2.0")] }

/-- Embeds `_create_megaid`: pack the millisecond timestamp above the drawn
salt, with the branch-per-bit-size structure of the source.  The fall-through
for an invalid `bit_size` (an `UnboundLocalError` in Python) is `none`. -/
def MEGAID._create_megaid (self : MEGAID) (timestamp : Nat) (entropy : Nat) :
    Option Nat :=
  if self.bit_size = 64 then
    some ((timestamp <<< 22) ||| getrandbits 22 entropy)
  else if self.bit_size = 52 then
    some ((timestamp <<< 10) ||| getrandbits 10 entropy)
  else if self.bit_size = 32 then
    some ((timestamp <<< 2) ||| getrandbits 2 entropy)
  else none

/-- Embeds `_decode_megaid`: split a snowflake back into timestamp and random
bits, with the branch-per-bit-size structure of the source. -/
def MEGAID._decode_megaid (self : MEGAID) (megaid : Nat) :
    Option (Nat × Nat) :=
  if self.bit_size = 64 then
    some (megaid >>> 22, megaid &&& ((1 <<< 22) - 1))
  else if self.bit_size = 52 then
    some (megaid >>> 10, megaid &&& ((1 <<< 10) - 1))
  else if self.bit_size = 32 then
    some (megaid >>> 2, megaid &&& ((1 <<< 2) - 1))
  else none

/-- The salt-width table of the specification: 64 → 22, 52 → 10, 32 → 2. -/
def saltWidth : Nat → Nat
  | 64 => 22
  | 52 => 10
  | 32 => 2
  | _ => 0

/-- Embeds `create(immutable_data=None, mutable_data=None)`: mint a snowflake,
decode it back, build and sign the immutable payload with the ADMIN key and
the mutable payload with the SHARED key, and join
`"<megaid>:<immutable_jwt>:<mutable_jwt>"`.  The wall-clock reading and the
entropy drawn by `random.getrandbits` are explicit arguments. -/
def MEGAID.create (self : MEGAID) (now entropy : Nat)
    (immutable_data mutable_data : Option Metadata) : Option (List Char) := do
  let megaid ← self._create_megaid now entropy
  let (timestamp, random_bits) ← self._decode_megaid megaid
  let idata_payload : Payload :=
    [("megaid", .atom (.num (megaid : Int))),
     ("date_created", .atom (.num (timestamp : Int))),
     ("random_bits", .atom (.num (random_bits : Int))),
     ("immutable_data", .map (pyDictOr immutable_data self.default_metadata))]
  let immutable_jwt := jwtEncode idata_payload self.admin_key
  let mutable_payload : Payload :=
    [("date_updated", .atom (.num (timestamp : Int))),
     ("mutable_data", .map (pyDictOr mutable_data []))]
  let mutable_jwt := jwtEncode mutable_payload self.shared_key
  some (natToChars megaid ++ ':' :: immutable_jwt ++ ':' :: mutable_jwt)

/-- Embeds `read(compound_id)`: split on `:` expecting exactly three parts,
verify-and-decode the immutable token with the ADMIN key and the mutable
token with the SHARED key, and return the merged six-field view.  Every
failure (wrong segment count, signature or structure failure, missing dict
key) is caught by the blanket `except` in the source, which prints and
returns `{}` — modelled by `none`. -/
def MEGAID.read (self : MEGAID) (compound_id : List Char) : Option Payload :=
  match splitCh ':' compound_id with
  | [_, immutable_token, mutable_token] => do
    let immutable_payload ← jwtDecode immutable_token self.admin_key
    let mutable_payload ← jwtDecode mutable_token self.shared_key
    let megaid ← immutable_payload.lookup "megaid"
    let date_created ← immutable_payload.lookup "date_created"
    let date_updated ← mutable_payload.lookup "date_updated"
    let random_bits ← immutable_payload.lookup "random_bits"
    let immutable_data ← immutable_payload.lookup "immutable_data"
    let mutable_data ← mutable_payload.lookup "mutable_data"
    some [("megaid", megaid),
          ("date_created", date_created),
          ("date_updated", date_updated),
          ("random_bits", random_bits),
          ("immutable_data", immutable_data),
          ("mutable_data", mutable_data)]
  | _ => none

/-- Python `payload.get("mutable_data", {})` followed by `.update(...)`:
yields the stored mapping, the empty mapping when the key is absent, and
fails (`none`, the `AttributeError` path into the blanket `except`) when the
stored value is not a mapping. -/
def dictGetMap (k : String) (p : Payload) : Option Metadata :=
  match p.lookup k with
  | some (.map m) => some m
  | some (.atom _) => none
  | none => some []

/-- Python `current_data.update(updates)` on dicts: existing keys keep their
position but take the value from `updates`; keys only in `updates` are
appended in their order. -/
def dictUpdate (d u : Metadata) : Metadata :=
  (d.map fun kv =>
    match u.lookup kv.1 with
    | some v => (kv.1, v)
    | none => kv)
  ++ u.filter fun kv => (d.lookup kv.1).isNone

/-- Embeds `update(compound_id, updates)`: split on `:` expecting exactly
three parts, verify-and-decode only the mutable token with the SHARED key,
shallow-merge `updates` into its `mutable_data`, sign a fresh mutable payload
whose `date_updated` is the current wall-clock reading (explicit argument
`now`), and rejoin with the untouched first two segments.  Every failure is
caught by the blanket `except`, which prints and returns `""` — modelled by
`none`. -/
def MEGAID.update (self : MEGAID) (compound_id : List Char)
    (updates : Metadata) (now : Nat) : Option (List Char) :=
  match splitCh ':' compound_id with
  | [megaid, immutable_token, mutable_token] => do
    let mutable_payload ← jwtDecode mutable_token self.shared_key
    let current_data ← dictGetMap "mutable_data" mutable_payload
    let merged := dictUpdate current_data updates
    let new_payload : Payload :=
      [("date_updated", .atom (.num (now : Int))),
       ("mutable_data", .map merged)]
    let new_mutable_jwt := jwtEncode new_payload self.shared_key
    some (megaid ++ ':' :: immutable_token ++ ':' :: new_mutable_jwt)
  | _ => none

/-! ## Abbreviations for stating pipeline facts -/

/-- The snowflake `create` mints from clock reading `now` and entropy `n`. -/
def mintedId (e : MEGAID) (now n : Nat) : Nat :=
  (now <<< saltWidth e.bit_size) ||| getrandbits (saltWidth e.bit_size) n

/-- The immutable payload `create` signs (after decoding the snowflake back,
which recovers `now` and the drawn salt exactly). -/
def mintedImmPayload (e : MEGAID) (now n : Nat) (m1 : Option Metadata) :
    Payload :=
  [("megaid", .atom (.num (mintedId e now n : Int))),
   ("date_created", .atom (.num (now : Int))),
   ("random_bits", .atom (.num (getrandbits (saltWidth e.bit_size) n : Int))),
   ("immutable_data", .map (pyDictOr m1 e.default_metadata))]

/-- The mutable payload `create` signs. -/
def mintedMutPayload (now : Nat) (m2 : Option Metadata) : Payload :=
  [("date_updated", .atom (.num (now : Int))),
   ("mutable_data", .map (pyDictOr m2 []))]

/-! ## Witness instances -/

/-- A concrete engine for witnesses: 32-bit tier, distinct keys. -/
def egW : MEGAID :=
  { admin_key := "A", shared_key := "S", bit_size := 32,
    default_metadata := [("created_by", .str "MEGAID"), ("version", .str "2.0")] }

/-- The same shared key as `egW` but a different (deliberately bogus) admin
key: the shared-key holder of the split-key design. -/
def egShW : MEGAID :=
  { admin_key := "not-a-real-key", shared_key := "S", bit_size := 32,
    default_metadata := [("created_by", .str "MEGAID"), ("version", .str "2.0")] }

/-- A concrete compound ID minted by `egW` at time 1 with entropy 2. -/
def cW : List Char := (egW.create 1 2 (some [("k", .str "v")]) none).getD []

/-- The compound `cW` with its last byte changed (`;` becomes `0`): a
tampered mutable token segment. -/
def cWtampered : List Char := cW.dropLast ++ ['0']

/-- A compound ID minted by `egW` with an explicitly empty immutable mapping. -/
def cWempty : List Char := (egW.create 1 2 (some []) (some [])).getD []

/-- The snowflake segment of `cW`. -/
def cw0 : List Char := (splitCh ':' cW).get! 0

/-- The immutable token segment of `cW`. -/
def cw1 : List Char := (splitCh ':' cW).get! 1

/-- The mutable token segment of `cW`. -/
def cw2 : List Char := (splitCh ':' cW).get! 2

/-- The decoded mutable payload of `cW`. -/
def mpW : Payload := (jwtDecode cw2 egW.shared_key).getD []

/-- The mutable mapping stored in `cW`. -/
def mdW : Metadata := (dictGetMap "mutable_data" mpW).getD []

/-! ## Serialization round-trips -/

theorem decChars_encChars (cs : List Char) (rest : List Nat) :
    decChars cs.length (cs.map Char.toNat ++ rest) = some (cs, rest) := by
  induction cs generalizing rest with
  | nil => simp [decChars]
  | cons c cs ih => simp [decChars, ih, Char.ofNat_toNat]

theorem decString_encString (s : String) (rest : List Nat) :
    decString (encString s ++ rest) = some (s, rest) := by
  cases s with
  | mk data => simp [encString, decString, decChars_encChars]

theorem encString_injective : Function.Injective encString := by
  intro a b h
  have ha := decString_encString a []
  have hb := decString_encString b []
  rw [h, hb] at ha
  injection ha with h1
  injection h1 with h2 h3
  exact h2.symm

theorem decValue_encValue (v : Value) (rest : List Nat) :
    decValue (encValue v ++ rest) = some (v, rest) := by
  cases v with
  | str s => simp [encValue, decValue, decString_encString]
  | num n =>
    by_cases hn : n < 0
    · simp only [encValue, if_pos hn]
      simp only [List.cons_append, List.nil_append, decValue,
        Option.some.injEq, Prod.mk.injEq, Value.num.injEq, and_true]
      rw [Int.ofNat_natAbs_of_nonpos (le_of_lt hn)]
      exact neg_neg n
    · simp only [encValue, if_neg hn]
      simp only [List.cons_append, List.nil_append, decValue,
        Option.some.injEq, Prod.mk.injEq, Value.num.injEq, and_true]
      exact Int.natAbs_of_nonneg (not_lt.mp hn)
  | bool b => cases b <;> simp [encValue, decValue]

theorem encEntriesBody_cons (kv : String × Value) (m : Metadata) :
    encEntriesBody (kv :: m) =
      encString kv.1 ++ encValue kv.2 ++ encEntriesBody m := rfl

theorem decEntries_encEntriesBody (m : Metadata) (rest : List Nat) :
    decEntries m.length (encEntriesBody m ++ rest) = some (m, rest) := by
  induction m generalizing rest with
  | nil => simp [encEntriesBody, decEntries]
  | cons kv m ih =>
    simp [encEntriesBody_cons, decEntries, List.append_assoc,
      decString_encString, decValue_encValue, ih]

theorem decMetadata_encMetadata (m : Metadata) (rest : List Nat) :
    decMetadata (encMetadata m ++ rest) = some (m, rest) := by
  simp [encMetadata, decMetadata, decEntries_encEntriesBody]

theorem decPayloadVal_encPayloadVal (f : PayloadVal) (rest : List Nat) :
    decPayloadVal (encPayloadVal f ++ rest) = some (f, rest) := by
  cases f with
  | atom v => simp [encPayloadVal, decPayloadVal, decValue_encValue]
  | map m => simp [encPayloadVal, decPayloadVal, decMetadata_encMetadata]

theorem encPayloadBody_cons (kv : String × PayloadVal) (p : Payload) :
    encPayloadBody (kv :: p) =
      encString kv.1 ++ encPayloadVal kv.2 ++ encPayloadBody p := rfl

theorem decPEntries_encPayloadBody (p : Payload) (rest : List Nat) :
    decPEntries p.length (encPayloadBody p ++ rest) = some (p, rest) := by
  induction p generalizing rest with
  | nil => simp [encPayloadBody, decPEntries]
  | cons kv p ih =>
    simp [encPayloadBody_cons, decPEntries, List.append_assoc,
      decString_encString, decPayloadVal_encPayloadVal, ih]

theorem decPayload_encPayload (p : Payload) (rest : List Nat) :
    decPayload (encPayload p ++ rest) = some (p, rest) := by
  simp [encPayload, decPayload, decPEntries_encPayloadBody]

/-! ## Decimal rendering and token text -/

theorem isDigitCh_digitChar {d : Nat} (h : d < 10) :
    isDigitCh (Nat.digitChar d) = true := by
  interval_cases d <;> decide

theorem digitVal_digitChar {d : Nat} (h : d < 10) :
    digitVal (Nat.digitChar d) = d := by
  interval_cases d <;> decide

theorem natToCharsAux_digits {fuel n : Nat} :
    ∀ c ∈ natToCharsAux fuel n, isDigitCh c = true := by
  induction fuel generalizing n with
  | zero => simp [natToCharsAux]
  | succ fuel ih =>
    intro c hc
    by_cases h : n < 10
    · rw [natToCharsAux, if_pos h] at hc
      simp only [List.mem_singleton] at hc
      subst hc
      exact isDigitCh_digitChar h
    · rw [natToCharsAux, if_neg h] at hc
      rcases List.mem_append.mp hc with hc | hc
      · exact ih c hc
      · simp only [List.mem_singleton] at hc
        subst hc
        exact isDigitCh_digitChar (Nat.mod_lt n (by omega))

theorem natToChars_digits {n : Nat} :
    ∀ c ∈ natToChars n, isDigitCh c = true :=
  natToCharsAux_digits

theorem natToCharsAux_ne_nil {fuel n : Nat} (h : fuel ≠ 0) :
    natToCharsAux fuel n ≠ [] := by
  cases fuel with
  | zero => exact absurd rfl h
  | succ fuel =>
    by_cases h10 : n < 10
    · rw [natToCharsAux, if_pos h10]; simp
    · rw [natToCharsAux, if_neg h10]; simp

theorem natToChars_ne_nil {n : Nat} : natToChars n ≠ [] :=
  natToCharsAux_ne_nil (Nat.succ_ne_zero n)

theorem foldl_digits_natToCharsAux {fuel : Nat} : ∀ {n : Nat} (a : Nat), n < 10 ^ fuel →
    List.foldl (fun a c => a * 10 + digitVal c) a (natToCharsAux fuel n)
      = a * 10 ^ (natToCharsAux fuel n).length + n := by
  induction fuel with
  | zero =>
    intro n a h
    interval_cases n
    simp [natToCharsAux]
  | succ fuel ih =>
    intro n a h
    by_cases h10 : n < 10
    · rw [natToCharsAux, if_pos h10]
      simp [digitVal_digitChar h10]
    · rw [natToCharsAux, if_neg h10]
      rw [List.foldl_append]
      have hdiv : n / 10 < 10 ^ fuel := by
        rw [pow_succ] at h
        omega
      rw [ih _ hdiv]
      simp only [List.foldl_cons, List.foldl_nil, List.length_append,
        List.length_singleton, digitVal_digitChar (Nat.mod_lt n (by omega))]
      rw [pow_succ, Nat.add_mul, ← Nat.mul_assoc]
      omega

theorem digitsVal_natToChars (n : Nat) : digitsVal (natToChars n) = n := by
  have h : n < 10 ^ (n + 1) :=
    lt_of_lt_of_le (Nat.lt_pow_self (by omega) n)
      (Nat.pow_le_pow_right (by omega) (Nat.le_succ n))
  have := foldl_digits_natToCharsAux 0 h
  simpa [digitsVal, natToChars] using this

theorem takeWhile_dropWhile_append (p : Char → Bool) (xs : List Char)
    (y : Char) (r : List Char)
    (hall : ∀ c ∈ xs, p c = true) (hy : p y = false) :
    (xs ++ y :: r).takeWhile p = xs ∧ (xs ++ y :: r).dropWhile p = y :: r := by
  induction xs with
  | nil => simp [List.takeWhile_cons, List.dropWhile_cons, hy]
  | cons x xs ih =>
    have hx : p x = true := hall x (by simp)
    have hrec := ih fun c hc => hall c (by simp [hc])
    simp [List.takeWhile_cons, List.dropWhile_cons, hx, hrec.1, hrec.2]

theorem parseNatFrom_natToChars (n : Nat) (rest : List Char) :
    parseNatFrom (natToChars n ++ ';' :: rest) = some (n, rest) := by
  obtain ⟨htake, hdrop⟩ := takeWhile_dropWhile_append
    isDigitCh (natToChars n) ';' rest
    (fun c hc => natToChars_digits c hc) (by decide)
  unfold parseNatFrom
  rw [htake, hdrop]
  rcases hne : natToChars n with _ | ⟨c, cs⟩
  · exact absurd hne natToChars_ne_nil
  · show some (digitsVal (c :: cs), rest) = some (n, rest)
    rw [← hne, digitsVal_natToChars]

theorem parseNatsAux_renderNats :
    ∀ (l : List Nat) (fuel : Nat), (renderNats l).length ≤ fuel →
      parseNatsAux fuel (renderNats l) = some l := by
  intro l
  induction l with
  | nil =>
    intro fuel _
    cases fuel <;> simp [renderNats, parseNatsAux]
  | cons n l ih =>
    intro fuel h
    have hrn : renderNats (n :: l) = natToChars n ++ ';' :: renderNats l := rfl
    rw [hrn] at h ⊢
    rcases hne : natToChars n with _ | ⟨c, cs⟩
    · exact absurd hne natToChars_ne_nil
    · cases fuel with
      | zero => simp [List.length_append] at h
      | succ fuel =>
        have hparse := parseNatFrom_natToChars n (renderNats l)
        rw [hne] at hparse
        simp only [List.cons_append] at hparse ⊢
        have hlen : (renderNats l).length ≤ fuel := by
          simp only [List.length_append, List.length_cons] at h
          omega
        simp [parseNatsAux, hparse, ih fuel hlen]

theorem parseAllNats_renderNats (l : List Nat) :
    parseAllNats (renderNats l) = some l :=
  parseNatsAux_renderNats l (renderNats l).length le_rfl

theorem renderNats_chars {l : List Nat} :
    ∀ c ∈ renderNats l, isDigitCh c = true ∨ c = ';' := by
  induction l with
  | nil => simp [renderNats]
  | cons n l ih =>
    intro c hc
    have hrn : renderNats (n :: l) = natToChars n ++ ';' :: renderNats l := rfl
    rw [hrn] at hc
    rcases List.mem_append.mp hc with hc | hc
    · exact .inl (natToChars_digits c hc)
    · rcases List.mem_cons.mp hc with hc | hc
      · exact .inr hc
      · exact ih c hc

theorem colon_not_mem_renderNats {l : List Nat} : ':' ∉ renderNats l := by
  intro h
  rcases renderNats_chars ':' h with h | h <;> simp_all [isDigitCh]

theorem dot_not_mem_renderNats {l : List Nat} : '.' ∉ renderNats l := by
  intro h
  rcases renderNats_chars '.' h with h | h <;> simp_all [isDigitCh]

/-! ## Splitting on a separator -/

theorem splitCh_ne_nil {sep : Char} {xs : List Char} : splitCh sep xs ≠ [] := by
  induction xs with
  | nil => simp [splitCh]
  | cons c cs ih =>
    rw [splitCh]
    by_cases h : c = sep
    · simp [h]
    · rw [if_neg h]
      rcases hsp : splitCh sep cs with _ | ⟨piece, rest⟩
      · exact absurd hsp ih
      · simp

theorem splitCh_of_not_mem {sep : Char} {xs : List Char} (h : sep ∉ xs) :
    splitCh sep xs = [xs] := by
  induction xs with
  | nil => rfl
  | cons c cs ih =>
    have hc : ¬ c = sep := fun hc => h (by simp [hc])
    have hcs := ih fun hm => h (List.mem_cons_of_mem c hm)
    rw [splitCh, if_neg hc, hcs]

theorem splitCh_append {sep : Char} {xs r : List Char} (h : sep ∉ xs) :
    splitCh sep (xs ++ sep :: r) = xs :: splitCh sep r := by
  induction xs with
  | nil => simp [splitCh]
  | cons c cs ih =>
    have hc : ¬ c = sep := fun hc => h (by simp [hc])
    have hcs := ih fun hm => h (List.mem_cons_of_mem c hm)
    rw [List.cons_append, splitCh, if_neg hc, hcs]

theorem not_mem_of_mem_splitCh {sep : Char} {xs piece : List Char}
    (h : piece ∈ splitCh sep xs) : sep ∉ piece := by
  induction xs generalizing piece with
  | nil =>
    simp only [splitCh, List.mem_singleton] at h
    subst h
    simp
  | cons c cs ih =>
    rw [splitCh] at h
    by_cases hc : c = sep
    · rw [if_pos hc] at h
      rcases List.mem_cons.mp h with h | h
      · subst h; simp
      · exact ih h
    · rw [if_neg hc] at h
      rcases hsp : splitCh sep cs with _ | ⟨p0, rest⟩
      · exact absurd hsp splitCh_ne_nil
      · rw [hsp] at h
        rcases List.mem_cons.mp h with h | h
        · subst h
          intro hm
          rcases List.mem_cons.mp hm with hm | hm
          · exact hc hm.symm
          · exact ih (hsp ▸ List.mem_cons_self p0 rest) hm
        · exact ih (hsp ▸ List.mem_cons_of_mem p0 h)

/-! ## JWT round-trip and key separation -/

theorem jwtEncode_chars {p : Payload} {key : String} :
    ∀ c ∈ jwtEncode p key, isDigitCh c = true ∨ c = ';' ∨ c = '.' := by
  intro c hc
  rcases List.mem_append.mp hc with hc | hc
  · rcases renderNats_chars c hc with h | h
    · exact .inl h
    · exact .inr (.inl h)
  · rcases List.mem_cons.mp hc with hc | hc
    · exact .inr (.inr hc)
    · rcases renderNats_chars c hc with h | h
      · exact .inl h
      · exact .inr (.inl h)

theorem colon_not_mem_jwtEncode {p : Payload} {key : String} :
    ':' ∉ jwtEncode p key := by
  intro h
  rcases jwtEncode_chars ':' h with h | h | h <;> simp_all [isDigitCh]

theorem jwtDecode_jwtEncode (p : Payload) (key : String) :
    jwtDecode (jwtEncode p key) key = some p := by
  unfold jwtEncode jwtDecode
  rw [splitCh_append dot_not_mem_renderNats,
    splitCh_of_not_mem dot_not_mem_renderNats]
  have hp : decPayload (encPayload p) = some (p, []) := by
    have := decPayload_encPayload p []
    rwa [List.append_nil] at this
  simp [parseAllNats_renderNats, hp]

theorem hmacSig_key_injective {k k' : String} {m : List Nat}
    (h : hmacSig k m = hmacSig k' m) : k = k' := by
  unfold hmacSig at h
  exact encString_injective (List.append_cancel_right h)

theorem jwtDecode_jwtEncode_wrong_key (p : Payload) {k k' : String}
    (h : k' ≠ k) : jwtDecode (jwtEncode p k) k' = none := by
  unfold jwtEncode jwtDecode
  rw [splitCh_append dot_not_mem_renderNats,
    splitCh_of_not_mem dot_not_mem_renderNats]
  have hp : decPayload (encPayload p) = some (p, []) := by
    have := decPayload_encPayload p []
    rwa [List.append_nil] at this
  have hsig : ¬ (hmacSig k (encPayload p) = hmacSig k' (encPayload p)) :=
    fun hs => h (hmacSig_key_injective hs).symm
  simp [parseAllNats_renderNats, hp, hsig]

/-! ## Bit-packing arithmetic -/

theorem lor_shiftLeft_eq_add {w s : Nat} (t : Nat) (h : s < 2 ^ w) :
    (t <<< w) ||| s = t * 2 ^ w + s := by
  induction w generalizing t s with
  | zero =>
    have hs : s = 0 := by simpa using h
    subst hs
    simp [Nat.shiftLeft_eq]
  | succ w ih =>
    have hs2 : s.div2 < 2 ^ w := by
      rw [Nat.div2_val]
      rw [pow_succ] at h
      omega
    have hbit : t <<< (w + 1) = Nat.bit false (t <<< w) := by
      simp only [Nat.shiftLeft_eq, Nat.bit_val, Bool.toNat_false, Nat.add_zero,
        pow_succ]
      ring
    calc (t <<< (w + 1)) ||| s
        = Nat.bit false (t <<< w) ||| Nat.bit s.bodd s.div2 := by
          rw [hbit, Nat.bit_decomp]
      _ = Nat.bit (false || s.bodd) ((t <<< w) ||| s.div2) := Nat.lor_bit ..
      _ = Nat.bit s.bodd (t * 2 ^ w + s.div2) := by rw [ih t hs2]; simp
      _ = t * 2 ^ (w + 1) + s := by
          have hsdec := Nat.bit_decomp s
          rw [Nat.bit_val] at hsdec
          rw [Nat.bit_val, pow_succ, ← Nat.mul_assoc]
          generalize t * 2 ^ w = X
          cases hb : s.bodd <;> simp only [hb] at hsdec <;>
            simp only [Bool.toNat_true, Bool.toNat_false] at hsdec ⊢ <;> omega

theorem mod_two_mul (n m : Nat) (hm : 0 < m) :
    2 * (n / 2 % m) + n % 2 = n % (m * 2) := by
  conv_rhs =>
    rw [← Nat.div_add_mod n 2, ← Nat.div_add_mod (n / 2) m]
  have hre : 2 * (m * (n / 2 / m) + n / 2 % m) + n % 2
      = (m * 2) * (n / 2 / m) + (2 * (n / 2 % m) + n % 2) := by ring
  rw [hre, Nat.mul_add_mod]
  refine (Nat.mod_eq_of_lt ?_).symm
  have h1 := Nat.mod_lt (n / 2) hm
  have h2 := Nat.mod_lt n (show 0 < 2 by omega)
  omega

theorem land_two_pow_sub_one (n w : Nat) : n &&& (2 ^ w - 1) = n % 2 ^ w := by
  induction w generalizing n with
  | zero => simp [Nat.mod_one]
  | succ w ih =>
    have hm : 0 < (2 : Nat) ^ w := Nat.pos_pow_of_pos w (by omega)
    have hmask : (2 : Nat) ^ (w + 1) - 1 = Nat.bit true (2 ^ w - 1) := by
      rw [Nat.bit_val, pow_succ]
      simp only [Bool.toNat_true]
      omega
    calc n &&& (2 ^ (w + 1) - 1)
        = Nat.bit n.bodd n.div2 &&& Nat.bit true (2 ^ w - 1) := by
          rw [Nat.bit_decomp, hmask]
      _ = Nat.bit (n.bodd && true) (n.div2 &&& (2 ^ w - 1)) := Nat.land_bit ..
      _ = Nat.bit n.bodd (n.div2 % 2 ^ w) := by rw [ih]; simp
      _ = n % 2 ^ (w + 1) := by
          rw [Nat.bit_val, Nat.div2_val, pow_succ, ← Nat.mod_two_of_bodd]
          exact mod_two_mul n (2 ^ w) hm

theorem pack_div (t s w : Nat) (h : s < 2 ^ w) : (t * 2 ^ w + s) / 2 ^ w = t := by
  have hm : 0 < (2 : Nat) ^ w := Nat.pos_pow_of_pos w (by omega)
  rw [Nat.add_comm, Nat.mul_comm, Nat.add_mul_div_left _ _ hm,
    Nat.div_eq_of_lt h, Nat.zero_add]

theorem pack_mod (t s w : Nat) (h : s < 2 ^ w) : (t * 2 ^ w + s) % 2 ^ w = s := by
  rw [Nat.mul_comm, Nat.mul_add_mod, Nat.mod_eq_of_lt h]

theorem pack_unpack (t s w : Nat) (h : s < 2 ^ w) :
    ((t <<< w) ||| s) >>> w = t ∧ ((t <<< w) ||| s) &&& ((1 <<< w) - 1) = s := by
  rw [lor_shiftLeft_eq_add t h, Nat.shiftRight_eq_div_pow, Nat.shiftLeft_eq,
    one_mul, land_two_pow_sub_one, pack_div t s w h, pack_mod t s w h]
  exact ⟨rfl, rfl⟩

theorem getrandbits_lt (k n : Nat) : getrandbits k n < 2 ^ k :=
  Nat.mod_lt n (Nat.pos_pow_of_pos k (by omega))

/-! ## The engine pipeline -/

theorem decode_pack (e : MEGAID)
    (hb : e.bit_size = 64 ∨ e.bit_size = 52 ∨ e.bit_size = 32)
    (t s : Nat) (hs : s < 2 ^ saltWidth e.bit_size) :
    e._decode_megaid ((t <<< saltWidth e.bit_size) ||| s) = some (t, s) := by
  unfold MEGAID._decode_megaid
  rcases hb with hb | hb | hb <;>
    rw [hb] at hs ⊢ <;>
    simp only [saltWidth] at hs ⊢
  · rw [if_pos trivial, (pack_unpack t s 22 hs).1, (pack_unpack t s 22 hs).2]
  · rw [if_pos trivial, (pack_unpack t s 10 hs).1, (pack_unpack t s 10 hs).2,
      if_neg (show ¬ (52 = 64) by omega)]
  · rw [if_pos trivial, (pack_unpack t s 2 hs).1, (pack_unpack t s 2 hs).2,
      if_neg (show ¬ (32 = 64) by omega), if_neg (show ¬ (32 = 52) by omega)]

theorem create_megaid_eq (e : MEGAID)
    (hb : e.bit_size = 64 ∨ e.bit_size = 52 ∨ e.bit_size = 32) (t n : Nat) :
    e._create_megaid t n = some (mintedId e t n) := by
  rcases hb with hb | hb | hb <;>
    simp [MEGAID._create_megaid, mintedId, hb, saltWidth]

theorem create_eq (e : MEGAID)
    (hb : e.bit_size = 64 ∨ e.bit_size = 52 ∨ e.bit_size = 32)
    (now n : Nat) (m1 m2 : Option Metadata) :
    e.create now n m1 m2 = some (natToChars (mintedId e now n)
      ++ ':' :: jwtEncode (mintedImmPayload e now n m1) e.admin_key
      ++ ':' :: jwtEncode (mintedMutPayload now m2) e.shared_key) := by
  have hdec : e._decode_megaid (mintedId e now n)
      = some (now, getrandbits (saltWidth e.bit_size) n) :=
    decode_pack e hb now _ (getrandbits_lt _ n)
  unfold MEGAID.create
  rw [create_megaid_eq e hb now n]
  simp [hdec, mintedImmPayload, mintedMutPayload]

theorem colon_not_mem_natToChars {n : Nat} : ':' ∉ natToChars n := by
  intro h
  have := natToChars_digits ':' h
  simp [isDigitCh] at this

theorem read_parts (e : MEGAID) {s0 : List Char} (h0 : ':' ∉ s0)
    (ip mp : Payload) {f1 f2 f3 f4 f5 f6 : PayloadVal}
    (h1 : ip.lookup "megaid" = some f1)
    (h2 : ip.lookup "date_created" = some f2)
    (h3 : mp.lookup "date_updated" = some f3)
    (h4 : ip.lookup "random_bits" = some f4)
    (h5 : ip.lookup "immutable_data" = some f5)
    (h6 : mp.lookup "mutable_data" = some f6) :
    e.read (s0 ++ ':' :: jwtEncode ip e.admin_key
        ++ ':' :: jwtEncode mp e.shared_key)
      = some [("megaid", f1), ("date_created", f2), ("date_updated", f3),
              ("random_bits", f4), ("immutable_data", f5),
              ("mutable_data", f6)] := by
  unfold MEGAID.read
  simp only [List.append_assoc, List.cons_append]
  rw [splitCh_append h0, splitCh_append colon_not_mem_jwtEncode,
    splitCh_of_not_mem colon_not_mem_jwtEncode]
  simp [jwtDecode_jwtEncode, h1, h2, h3, h4, h5, h6]

theorem update_parts (e : MEGAID) {c c0 c1 c2 : List Char}
    (hsplit : splitCh ':' c = [c0, c1, c2]) {mp : Payload}
    (hdec : jwtDecode c2 e.shared_key = some mp) {md : Metadata}
    (hmd : dictGetMap "mutable_data" mp = some md) (u : Metadata) (now : Nat) :
    e.update c u now = some (c0 ++ ':' :: c1 ++ ':' ::
      jwtEncode [("date_updated", .atom (.num (now : Int))),
        ("mutable_data", .map (dictUpdate md u))] e.shared_key) := by
  unfold MEGAID.update
  rw [hsplit]
  simp [hdec, hmd]

/-! ## Dict-merge semantics -/

theorem lookup_append_first {k : String} {A B : Metadata} {v : Value}
    (h : A.lookup k = some v) : (A ++ B).lookup k = some v := by
  induction A with
  | nil => cases h
  | cons kv A ih =>
    obtain ⟨k', v'⟩ := kv
    cases hbeq : (k == k') <;>
      simp only [List.lookup, hbeq] at h <;>
      simp only [List.cons_append, List.lookup, hbeq]
    · exact ih h
    · exact h

theorem lookup_append_second {k : String} {A B : Metadata}
    (h : A.lookup k = none) : (A ++ B).lookup k = B.lookup k := by
  induction A with
  | nil => rfl
  | cons kv A ih =>
    obtain ⟨k', v'⟩ := kv
    cases hbeq : (k == k') <;>
      simp only [List.lookup, hbeq] at h <;>
      simp only [List.cons_append, List.lookup, hbeq]
    · exact ih h
    · cases h

theorem lookup_map_upd_none {u d : Metadata} {k : String}
    (h : d.lookup k = none) :
    (d.map fun kv =>
      match u.lookup kv.1 with
      | some v => (kv.1, v)
      | none => kv).lookup k = none := by
  induction d with
  | nil => rfl
  | cons kv d ih =>
    obtain ⟨k', v'⟩ := kv
    cases hbeq : (k == k') <;>
      simp only [List.lookup, hbeq] at h
    · cases hu : u.lookup k' <;>
        simp only [List.map_cons, hu, List.lookup, hbeq] <;>
        exact ih h
    · cases h

theorem lookup_map_upd_some (u : Metadata) {d : Metadata} {k : String}
    {w : Value} (h : d.lookup k = some w) :
    (d.map fun kv =>
      match u.lookup kv.1 with
      | some v => (kv.1, v)
      | none => kv).lookup k
      = match u.lookup k with
        | some v => some v
        | none => some w := by
  induction d with
  | nil => cases h
  | cons kv d ih =>
    obtain ⟨k', v'⟩ := kv
    cases hbeq : (k == k') <;>
      simp only [List.lookup, hbeq] at h
    · cases hu : u.lookup k' <;>
        simp only [List.map_cons, hu, List.lookup, hbeq] <;>
        exact ih h
    · have hk : k = k' := eq_of_beq hbeq
      subst hk
      injection h with h
      subst h
      cases hu : u.lookup k <;>
        simp only [List.map_cons, hu, List.lookup, hbeq]

theorem lookup_filter_keep {d u : Metadata} {k : String}
    (hd : d.lookup k = none) :
    (u.filter fun kv => (d.lookup kv.1).isNone).lookup k = u.lookup k := by
  induction u with
  | nil => rfl
  | cons kv u ih =>
    obtain ⟨k', v'⟩ := kv
    cases hbeq : (k == k')
    · cases hp : (d.lookup k').isNone <;>
        simp only [List.filter_cons, hp, if_true, if_false, cond_true,
          cond_false, List.lookup, hbeq] <;>
        exact ih
    · have hk : k = k' := eq_of_beq hbeq
      subst hk
      have hp : (d.lookup k).isNone = true := by rw [hd]; rfl
      simp only [List.filter_cons, hp, cond_true, if_true, List.lookup,
        hbeq]

theorem dictUpdate_lookup_over {d u : Metadata} {k : String} {v : Value}
    (h : u.lookup k = some v) : (dictUpdate d u).lookup k = some v := by
  unfold dictUpdate
  cases hd : d.lookup k with
  | some w =>
    have := lookup_map_upd_some u hd
    rw [h] at this
    exact lookup_append_first this
  | none =>
    rw [lookup_append_second (lookup_map_upd_none hd), lookup_filter_keep hd, h]

theorem dictUpdate_lookup_frame {d u : Metadata} {k : String}
    (h : u.lookup k = none) : (dictUpdate d u).lookup k = d.lookup k := by
  unfold dictUpdate
  cases hd : d.lookup k with
  | some w =>
    have := lookup_map_upd_some u hd
    rw [h] at this
    exact lookup_append_first this
  | none =>
    rw [lookup_append_second (lookup_map_upd_none hd), lookup_filter_keep hd, h]

theorem dictUpdate_nil (d : Metadata) : dictUpdate d [] = d := by
  unfold dictUpdate
  simp [List.lookup]

theorem read_create (e : MEGAID) (now n : Nat) (m1 m2 : Option Metadata) :
    e.read (natToChars (mintedId e now n)
        ++ ':' :: jwtEncode (mintedImmPayload e now n m1) e.admin_key
        ++ ':' :: jwtEncode (mintedMutPayload now m2) e.shared_key)
      = some [("megaid", .atom (.num (mintedId e now n : Int))),
              ("date_created", .atom (.num (now : Int))),
              ("date_updated", .atom (.num (now : Int))),
              ("random_bits",
                .atom (.num (getrandbits (saltWidth e.bit_size) n : Int))),
              ("immutable_data", .map (pyDictOr m1 e.default_metadata)),
              ("mutable_data", .map (pyDictOr m2 []))] :=
  read_parts e colon_not_mem_natToChars _ _ rfl rfl rfl rfl rfl rfl

/-! ## The claims -/

/-- C2: for every bit size `b ∈ {64, 52, 32}`, every timestamp
`t < 2 ^ (b - salt_width b)` and every salt `s < 2 ^ salt_width b` (salt
widths 22 / 10 / 2), `_decode_megaid` maps the packed id
`(t <<< salt_width b) ||| s` back to exactly `(t, s)`; `_create_megaid`
packs its clock reading with the salt drawn by `getrandbits`, that salt is
always below `2 ^ salt_width b`, and decoding what `_create_megaid` minted
returns the timestamp and salt exactly. -/
theorem C2_codec_inverse (e : MEGAID)
    (hb : e.bit_size = 64 ∨ e.bit_size = 52 ∨ e.bit_size = 32)
    (t s entropy : Nat) (hs : s < 2 ^ saltWidth e.bit_size)
    (ht : t < 2 ^ (e.bit_size - saltWidth e.bit_size)) :
    e._decode_megaid ((t <<< saltWidth e.bit_size) ||| s) = some (t, s)
    ∧ e._create_megaid t entropy = some ((t <<< saltWidth e.bit_size)
        ||| getrandbits (saltWidth e.bit_size) entropy)
    ∧ getrandbits (saltWidth e.bit_size) entropy < 2 ^ saltWidth e.bit_size
    ∧ e._decode_megaid ((e._create_megaid t entropy).getD 0)
        = some (t, getrandbits (saltWidth e.bit_size) entropy) := by
  refine ⟨decode_pack e hb t s hs, create_megaid_eq e hb t entropy,
    getrandbits_lt _ _, ?_⟩
  rw [create_megaid_eq e hb t entropy]
  exact decode_pack e hb t _ (getrandbits_lt _ _)

/-- Witness for C2 at the 32-bit tier: `t = 1 < 2 ^ 30`, `s = 3 < 2 ^ 2`,
entropy 5. -/
theorem C2_witness :
    egW._decode_megaid ((1 <<< saltWidth egW.bit_size) ||| 3) = some (1, 3)
    ∧ egW._create_megaid 1 5 = some ((1 <<< saltWidth egW.bit_size)
        ||| getrandbits (saltWidth egW.bit_size) 5)
    ∧ getrandbits (saltWidth egW.bit_size) 5 < 2 ^ saltWidth egW.bit_size
    ∧ egW._decode_megaid ((egW._create_megaid 1 5).getD 0)
        = some (1, getrandbits (saltWidth egW.bit_size) 5) :=
  C2_codec_inverse egW (by decide) 1 3 5 (by decide) (by decide)

/-- C1: whenever `update` accepts a compound ID (returns a new one), the new
compound ID again has exactly three `:`-segments, and its snowflake segment
and immutable token segment are byte-identical to those of the input; only
the third (mutable) segment is rebuilt. -/
theorem C1_update_preserves_identity (e : MEGAID) (c r : List Char)
    (u : Metadata) (now : Nat) (h : e.update c u now = some r) :
    ∃ c0 c1 c2 tok, splitCh ':' c = [c0, c1, c2]
      ∧ splitCh ':' r = [c0, c1, tok] := by
  unfold MEGAID.update at h
  rcases hsp : splitCh ':' c with _ | ⟨c0, _ | ⟨c1, _ | ⟨c2, _ | ⟨c3, rest⟩⟩⟩⟩ <;>
    rw [hsp] at h
  · simp at h
  · simp at h
  · simp at h
  case cons.cons.cons.cons => simp at h
  · have hc0 : ':' ∉ c0 :=
      not_mem_of_mem_splitCh (hsp ▸ List.mem_cons_self _ _)
    have hc1 : ':' ∉ c1 :=
      not_mem_of_mem_splitCh
        (hsp ▸ List.mem_cons_of_mem _ (List.mem_cons_self _ _))
    simp only [Option.bind_eq_bind, Option.bind_eq_some] at h
    obtain ⟨mp, _, md, _, hr⟩ := h
    injection hr with hr
    subst hr
    refine ⟨c0, c1, c2,
      jwtEncode [("date_updated", .atom (.num (now : Int))),
        ("mutable_data", .map (dictUpdate md u))] e.shared_key, rfl, ?_⟩
    simp only [List.append_assoc, List.cons_append]
    rw [splitCh_append hc0, splitCh_append hc1,
      splitCh_of_not_mem colon_not_mem_jwtEncode]

/-- C5: `update` depends only on the shared key (and its explicit inputs),
never on the admin key: two engines agreeing on the shared key produce
identical `update` results on every input, and an engine whose admin key is
deliberately bogus still updates an ID minted by a correctly keyed engine,
with the merged mutable data readable by the correctly keyed engine. -/
theorem C5_update_independent_of_admin :
    (∀ e1 e2 : MEGAID, e1.shared_key = e2.shared_key →
      ∀ c u now, e1.update c u now = e2.update c u now)
    ∧ ∀ (e e' : MEGAID),
        (e.bit_size = 64 ∨ e.bit_size = 52 ∨ e.bit_size = 32) →
        e'.shared_key = e.shared_key →
        ∀ now0 n m1 m2 u now1 c, e.create now0 n m1 m2 = some c →
          ∃ c', e'.update c u now1 = some c'
            ∧ ∃ view, e.read c' = some view
              ∧ view.lookup "mutable_data"
                  = some (.map (dictUpdate (pyDictOr m2 []) u)) := by
  constructor
  · intro e1 e2 h c u now
    unfold MEGAID.update
    rw [h]
  · intro e e' hb hsh now0 n m1 m2 u now1 c hc
    rw [create_eq e hb now0 n m1 m2] at hc
    injection hc with hc
    subst hc
    have hsplit : splitCh ':' (natToChars (mintedId e now0 n)
        ++ ':' :: jwtEncode (mintedImmPayload e now0 n m1) e.admin_key
        ++ ':' :: jwtEncode (mintedMutPayload now0 m2) e.shared_key)
        = [natToChars (mintedId e now0 n),
           jwtEncode (mintedImmPayload e now0 n m1) e.admin_key,
           jwtEncode (mintedMutPayload now0 m2) e.shared_key] := by
      simp only [List.append_assoc, List.cons_append]
      rw [splitCh_append colon_not_mem_natToChars,
        splitCh_append colon_not_mem_jwtEncode,
        splitCh_of_not_mem colon_not_mem_jwtEncode]
    have hdec : jwtDecode (jwtEncode (mintedMutPayload now0 m2) e.shared_key)
        e'.shared_key = some (mintedMutPayload now0 m2) := by
      rw [hsh]
      exact jwtDecode_jwtEncode _ _
    have hmd : dictGetMap "mutable_data" (mintedMutPayload now0 m2)
        = some (pyDictOr m2 []) := rfl
    have hupd := update_parts e' hsplit hdec hmd u now1
    rw [hsh] at hupd
    refine ⟨_, hupd, ?_⟩
    exact ⟨_, read_parts e colon_not_mem_natToChars
      (mintedImmPayload e now0 n m1)
      [("date_updated", .atom (.num (now1 : Int))),
       ("mutable_data", .map (dictUpdate (pyDictOr m2 []) u))]
      rfl rfl rfl rfl rfl rfl, rfl⟩

set_option maxRecDepth 4000 in
/-- Witness for C5: `egShW` holds the shared key of `egW` but a bogus admin
key; it updates `cW` exactly as `egW` would, and its update of `cW` is
readable by `egW` with the merged data. -/
theorem C5_witness :
    egShW.update cW [] 3 = egW.update cW [] 3
    ∧ ∃ c', egShW.update cW [("x", .num 1)] 7 = some c'
      ∧ ∃ view, egW.read c' = some view
        ∧ view.lookup "mutable_data"
            = some (.map (dictUpdate (pyDictOr none []) [("x", .num 1)])) := by
  constructor
  · exact C5_update_independent_of_admin.1 egShW egW rfl cW [] 3
  · exact C5_update_independent_of_admin.2 egW egShW (by decide) rfl 1 2
      (some [("k", .str "v")]) none [("x", .num 1)] 7 cW (by decide)

set_option maxRecDepth 4000 in
/-- Witness for C1: updating the concrete compound `cW`. -/
theorem C1_witness : ∃ c0 c1 c2 tok,
    splitCh ':' cW = [c0, c1, c2]
    ∧ splitCh ':' ((egW.update cW [] 0).getD []) = [c0, c1, tok] :=
  C1_update_preserves_identity egW cW ((egW.update cW [] 0).getD []) [] 0
    (by decide)

/-- C8: on a compound ID whose mutable token verifies (and stores a mapping),
`update` succeeds, the new mutable payload carries `date_updated = now` and
the shallow merge of the stored mapping with `updates`: keys of `updates`
overwrite same-named keys, all other keys are untouched, and merging the
empty mapping leaves the stored mapping exactly unchanged. -/
theorem C8_update_merges (e : MEGAID) (c c0 c1 c2 : List Char)
    (hsplit : splitCh ':' c = [c0, c1, c2]) (mp : Payload)
    (hdec : jwtDecode c2 e.shared_key = some mp) (md : Metadata)
    (hmd : dictGetMap "mutable_data" mp = some md) (u : Metadata)
    (now : Nat) :
    e.update c u now = some (c0 ++ ':' :: c1 ++ ':' ::
        jwtEncode [("date_updated", .atom (.num (now : Int))),
          ("mutable_data", .map (dictUpdate md u))] e.shared_key)
    ∧ (∀ k v, u.lookup k = some v → (dictUpdate md u).lookup k = some v)
    ∧ (∀ k, u.lookup k = none → (dictUpdate md u).lookup k = md.lookup k)
    ∧ dictUpdate md [] = md :=
  ⟨update_parts e hsplit hdec hmd u now,
   fun _ _ h => dictUpdate_lookup_over h,
   fun _ h => dictUpdate_lookup_frame h,
   dictUpdate_nil md⟩

set_option maxRecDepth 4000 in
/-- Witness for C8 at the segments of the concrete compound `cW`. -/
theorem C8_witness :
    egW.update cW [("x", .num 1)] 7 = some (cw0 ++ ':' :: cw1 ++ ':' ::
        jwtEncode [("date_updated", .atom (.num (7 : Int))),
          ("mutable_data", .map (dictUpdate mdW [("x", .num 1)]))]
        egW.shared_key)
    ∧ dictUpdate mdW [] = mdW := by
  have h := C8_update_merges egW cW cw0 cw1 cw2 (by decide) mpW (by decide)
    mdW (by decide) [("x", .num 1)] 7
  exact ⟨h.1, h.2.2.2⟩

/-- C9 (amended): on a compound ID whose two tokens verify, `read` returns
the merged view with exactly the keys `megaid`, `date_created`,
`date_updated`, `random_bits`, `immutable_data`, `mutable_data` — the third
snowflake-derived field is exposed under the key `"random_bits"`, not
`"salt"` — where `megaid`, `date_created`, `random_bits` and
`immutable_data` come from the verified immutable payload and `date_updated`
and `mutable_data` from the verified mutable payload. -/
theorem C9_merged_view (e : MEGAID) (c c0 c1 c2 : List Char)
    (hsplit : splitCh ':' c = [c0, c1, c2]) (ip mp : Payload)
    (hdec1 : jwtDecode c1 e.admin_key = some ip)
    (hdec2 : jwtDecode c2 e.shared_key = some mp)
    (f1 f2 f3 f4 f5 f6 : PayloadVal)
    (h1 : ip.lookup "megaid" = some f1)
    (h2 : ip.lookup "date_created" = some f2)
    (h3 : mp.lookup "date_updated" = some f3)
    (h4 : ip.lookup "random_bits" = some f4)
    (h5 : ip.lookup "immutable_data" = some f5)
    (h6 : mp.lookup "mutable_data" = some f6) :
    e.read c = some [("megaid", f1), ("date_created", f2),
      ("date_updated", f3), ("random_bits", f4), ("immutable_data", f5),
      ("mutable_data", f6)] := by
  unfold MEGAID.read
  rw [hsplit]
  simp [hdec1, hdec2, h1, h2, h3, h4, h5, h6]

set_option maxRecDepth 4000 in
/-- Witness for C9 (amended) at the segments of the concrete compound `cW`. -/
theorem C9_witness :
    egW.read cW = some [("megaid", .atom (.num (6 : Int))),
      ("date_created", .atom (.num (1 : Int))),
      ("date_updated", .atom (.num (1 : Int))),
      ("random_bits", .atom (.num (2 : Int))),
      ("immutable_data", .map [("k", .str "v")]),
      ("mutable_data", .map [])] :=
  C9_merged_view egW cW cw0 cw1 cw2 (by decide)
    ((jwtDecode cw1 egW.admin_key).getD []) mpW (by decide) (by decide)
    _ _ _ _ _ _ (by decide) (by decide) (by decide) (by decide) (by decide)
    (by decide)

set_option maxRecDepth 4000 in
/-- Counterexample for C9 as stated: the merged view of the concrete
compound `cW` is returned successfully but has no key `"salt"` (the field is
named `"random_bits"` instead). -/
theorem C9_counterexample :
    (egW.read cW).isSome = true
    ∧ ((egW.read cW).getD []).lookup "salt" = none := by decide

/-- C3 (amended): `read ∘ create` round-trips on any engine with a valid bit
size: `create` succeeds and `read` of the result returns the view whose
`immutable_data` is the supplied mapping — with the engine's default
metadata substituted when the argument is absent **or empty** (Python
truthiness, not absence) — and whose `mutable_data` is the supplied mapping
(the empty mapping when absent). -/
theorem C3_roundtrip (e : MEGAID)
    (hb : e.bit_size = 64 ∨ e.bit_size = 52 ∨ e.bit_size = 32)
    (now n : Nat) (m1 m2 : Option Metadata) :
    ∃ c, e.create now n m1 m2 = some c
      ∧ ∃ view, e.read c = some view
        ∧ view.lookup "immutable_data"
            = some (.map (pyDictOr m1 e.default_metadata))
        ∧ view.lookup "mutable_data" = some (.map (pyDictOr m2 [])) :=
  ⟨_, create_eq e hb now n m1 m2, _, read_create e now n m1 m2, rfl, rfl⟩

/-- Witness for C3 (amended) with both mappings supplied non-empty. -/
theorem C3_witness :
    ∃ c, egW.create 1 2 (some [("k", .str "v")]) (some [("m", .num 5)])
        = some c
      ∧ ∃ view, egW.read c = some view
        ∧ view.lookup "immutable_data"
            = some (.map (pyDictOr (some [("k", .str "v")])
                egW.default_metadata))
        ∧ view.lookup "mutable_data"
            = some (.map (pyDictOr (some [("m", .num 5)]) [])) :=
  C3_roundtrip egW (by decide) 1 2 (some [("k", .str "v")])
    (some [("m", .num 5)])

set_option maxRecDepth 4000 in
/-- Counterexample for C3 as stated: creating with the immutable mapping
explicitly equal to the *empty* mapping yields a view whose `immutable_data`
is the engine's default metadata, not the supplied empty mapping. -/
theorem C3_counterexample :
    ∃ view, egW.read cWempty = some view
      ∧ ¬ view.lookup "immutable_data" = some (.map []) :=
  ⟨(egW.read cWempty).getD [], by decide, by decide⟩

/-- C10: `create` substitutes the engine default on Python falsiness, not
absence: creating with `immutable_data` explicitly `{}` is the same call as
creating with it absent; every engine built by `__init__` has non-empty
default metadata; and the minted ID of an explicitly-empty request reads
back with `immutable_data` equal to the engine default — so a caller cannot
mint an ID whose `immutable_data` is empty. -/
theorem C10_empty_mapping_uses_default (e : MEGAID)
    (hb : e.bit_size = 64 ∨ e.bit_size = 52 ∨ e.bit_size = 32)
    (now n : Nat) (m2 : Option Metadata) :
    e.create now n (some []) m2 = e.create now n none m2
    ∧ (∀ keys b dm e', MEGAID.init keys b dm = .ok e'
        → e'.default_metadata ≠ [])
    ∧ ∃ c, e.create now n (some []) m2 = some c
        ∧ ∃ view, e.read c = some view
          ∧ view.lookup "immutable_data" = some (.map e.default_metadata) := by
  refine ⟨rfl, ?_, ?_⟩
  · intro keys b dm e' h
    unfold MEGAID.init at h
    split_ifs at h with h1 h2
    injection h with h
    rw [← h]
    show pyDictOr dm _ ≠ []
    cases dm with
    | none => simp [pyDictOr]
    | some m =>
      by_cases hm : m = [] <;> simp [pyDictOr, hm]
  · exact ⟨_, create_eq e hb now n (some []) m2, _,
      read_create e now n (some []) m2, rfl⟩

/-- Witness for C10 on the concrete engine `egW`. -/
theorem C10_witness :
    egW.create 1 2 (some []) (some []) = egW.create 1 2 none (some [])
    ∧ (∀ keys b dm e', MEGAID.init keys b dm = .ok e'
        → e'.default_metadata ≠ [])
    ∧ ∃ c, egW.create 1 2 (some []) (some []) = some c
        ∧ ∃ view, egW.read c = some view
          ∧ view.lookup "immutable_data"
              = some (.map egW.default_metadata) :=
  C10_empty_mapping_uses_default egW (by decide) 1 2 (some [])

/-- C7 (amended): for a supplied non-empty keys mapping, construction
succeeds exactly when the mapping has both an `ADMIN` and a `SHARED` entry
and `bit_size ∈ {64, 52, 32}`; the *values* of the keys are never
validated, so empty-string keys are accepted. -/
theorem C7_init_checks (keys : List (String × String)) (b : Nat)
    (dm : Option Metadata) (hk : keys ≠ []) :
    (∃ e, MEGAID.init keys b dm = .ok e)
      ↔ ((keys.lookup "ADMIN").isSome ∧ (keys.lookup "SHARED").isSome
          ∧ (b = 64 ∨ b = 52 ∨ b = 32)) := by
  unfold MEGAID.init
  split_ifs with h1 h2
  · exact ⟨fun _ => ⟨h1.1, h1.2, h2⟩, fun _ => ⟨_, rfl⟩⟩
  · constructor
    · rintro ⟨e, he⟩
      exact he.elim
    · rintro ⟨_, _, hb⟩
      exact absurd hb h2
  · constructor
    · rintro ⟨e, he⟩
      exact he.elim
    · rintro ⟨ha, hs, _⟩
      exact absurd ⟨ha, hs⟩ h1

/-- Witness for C7 (amended) on a concrete well-formed configuration. -/
theorem C7_witness :
    (∃ e, MEGAID.init [("ADMIN", "a"), ("SHARED", "s")] 64 none = .ok e)
      ↔ (((([("ADMIN", "a"), ("SHARED", "s")] : List (String × String)).lookup
            "ADMIN").isSome)
          ∧ ((([("ADMIN", "a"), ("SHARED", "s")] : List (String × String)).lookup
            "SHARED").isSome)
          ∧ ((64 : Nat) = 64 ∨ (64 : Nat) = 52 ∨ (64 : Nat) = 32)) :=
  C7_init_checks [("ADMIN", "a"), ("SHARED", "s")] 64 none (by decide)

/-- Counterexample for C7 as stated: construction succeeds even though both
supplied keys are empty strings (the claim requires it to fail whenever
either key is not a non-empty string). -/
theorem C7_counterexample :
    ∃ e, MEGAID.init [("ADMIN", ""), ("SHARED", "")] 64 none = .ok e :=
  ⟨_, rfl⟩

set_option maxRecDepth 4000 in
/-- C4: the code swallows tampering.  Flipping the last byte of the concrete
compound `cW` makes `read` return the empty dict (modelled `none`) instead
of raising a distinct `SignatureInvalid`-style error, while the untampered
`cW` reads fine — the blanket `except` in `read` converts the signature
failure into a silent empty result. -/
theorem C4_tampered_read_swallowed :
    egW.read cWtampered = none ∧ ¬ egW.read cW = none := by decide

/-- C6: a compound ID that does not split into exactly three `:`-segments
makes both `read` and `update` fail before any token is examined — but via
the caught internal `ValueError`, so `read` returns the empty dict and
`update` the empty string (both modelled `none`) instead of surfacing a
`MalformedID` error. -/
theorem C6_malformed_swallowed (e : MEGAID) (s : List Char) (u : Metadata)
    (now : Nat) (h : (splitCh ':' s).length ≠ 3) :
    e.read s = none ∧ e.update s u now = none := by
  unfold MEGAID.read MEGAID.update
  rcases hsp : splitCh ':' s with _ | ⟨c0, _ | ⟨c1, _ | ⟨c2, _ | ⟨c3, rest⟩⟩⟩⟩ <;>
    first
      | exact ⟨rfl, rfl⟩
      | exact absurd (by simp [hsp]) h

/-- Witness for C6 on the two-character input `"ab"`. -/
theorem C6_witness :
    egW.read ['a', 'b'] = none ∧ egW.update ['a', 'b'] [] 0 = none :=
  C6_malformed_swallowed egW ['a', 'b'] [] 0 (by decide)

end MegaSpec
